import Mathlib

/-!
Verification of the expectation-matching engine of `fakegorm` (src/main.go).

The Go source is shallowly embedded as pure Lean functions in state-passing
style.  Go `interface{}` values are modelled by the inductive `Value`
(serialisable data plus a marker for non-serialisable kinds such as
functions and channels); observed arguments by `Arg` (a plain value, a
pointer into an ambient heap, or the untyped nil interface); Go `error`
values by the inductive `Err`, one constructor per `errors.New` site plus
one for user-supplied errors.  Mutation of caller memory by
`setOutputParams` is modelled by an explicit heap `Nat → Value` carried in
the state.  A Go panic (out-of-range slice indexing, method call on a nil
`reflect.Type`) is modelled by the `Outcome.panicked` constructor.
-/

/-- Go values, restricted to the structural fragment the engine manipulates:
JSON-serialisable data (`null`, booleans, integers, strings, and nested
containers built from cons cells `varrCons`/`varrNil`) plus `vfunc`, a
marker for the non-serialisable kinds (functions, channels) on which
`json.Marshal` fails. -/
inductive Value where
  | vnull : Value
  | vbool : Bool → Value
  | vint : Int → Value
  | vstr : String → Value
  | varrNil : Value
  | varrCons : Value → Value → Value
  | vfunc : Nat → Value
deriving DecidableEq, Repr

/-- An observed argument of an intercepted operation: a plain (non-pointer)
value, a pointer into the ambient heap (cell index), or the untyped nil
interface (`reflect.TypeOf` returns nil on it). -/
inductive Arg where
  | val : Value → Arg
  | ptr : Nat → Arg
  | anil : Arg
deriving DecidableEq, Repr

/-- Whether an argument is of pointer kind (`reflect.Ptr`). -/
def Arg.isPtr : Arg → Bool
  | .ptr _ => true
  | _ => false

/-- The `reflect.Kind` name of a non-pointer value, as interpolated into the
message `"Out parameters must be pointers. Got kind %v."`. -/
def kindOfValue : Value → String
  | .vnull => "ptr"
  | .vbool _ => "bool"
  | .vint _ => "int"
  | .vstr _ => "string"
  | .varrNil => "slice"
  | .varrCons _ _ => "slice"
  | .vfunc _ => "func"

/-- Go `error` values produced or stored by the engine: one constructor per
`errors.New` site in src/main.go, plus `userErr` for errors supplied by the
test author via `WithError`. -/
inductive Err where
  | unexpectedCall : String → Err
  | wrongFunction : String → String → Err
  | notEnoughParams : Err
  | tooManyParams : Err
  | paramMismatch : Arg → String → Arg → Err
  | outputNotPointer : String → Err
  | marshalError : Value → Err
  | notAllMet : Err
  | userErr : String → Err
deriving DecidableEq, Repr

/-- Ambient mutable memory reachable through pointer arguments. -/
def Heap : Type := Nat → Value

/-- Pointwise heap update (the effect of writing through a pointer). -/
def hupdate (h : Heap) (r : Nat) (v : Value) : Heap :=
  fun x => if x = r then v else h x

/-- The `expectation` struct of src/main.go (lines 16-21). -/
structure Expectation where
  Function : String
  Params : List Arg
  Output : List Value
  Error : Option Err
deriving Repr, DecidableEq

/-- The `DB` struct of src/main.go (lines 23-29), extended with the ambient
heap so that writes through pointer arguments are part of the state.  The
`*sql.DB` field is a no-op placeholder and is omitted. -/
structure DB where
  Error : Option Err
  expectations : List Expectation
  index : Nat
  testErrors : List Err
  heap : Heap

/-- `reflect.DeepEqual` on two arguments: values of distinct kinds are never
deeply equal; two pointers are deeply equal iff their referents are equal
(pointer identity is irrelevant); `DeepEqual(nil, nil)` is true. -/
def deepEqual (h : Heap) : Arg → Arg → Bool
  | .val v, .val w => v == w
  | .ptr r, .ptr s => h r == h s
  | .anil, .anil => true
  | _, _ => false

/-- `Open` (src/main.go lines 38-41): a fresh handle with empty queue state.
The heap starts arbitrary; we fix all cells to `vnull`. -/
def Open : DB :=
  { Error := none, expectations := [], index := 0, testErrors := [],
    heap := fun _ => Value.vnull }

/-- Modelled from the spec: the function `Copy`, called by `WithOutput`
(src/main.go line 67), is not present in the repository source.  The spec
says each output value "is captured as an independent structural copy at
declaration time"; in this value semantics a structural copy of a value is
the value itself. -/
def Copy (v : Value) : Value := v

/-- `ExpectCall` (src/main.go lines 53-56): append a fresh expectation with
the given name.  The returned `*expectation` points at the last list entry,
so the builder methods below act on the last expectation. -/
def ExpectCall (st : DB) (fn : String) : DB :=
  { st with expectations :=
      st.expectations ++ [{ Function := fn, Params := [], Output := [], Error := none }] }

/-- Rewrite the last declared expectation (the target of the `*expectation`
returned by `ExpectCall`). -/
def modifyLast (st : DB) (f : Expectation → Expectation) : DB :=
  match st.expectations.getLast? with
  | none => st
  | some e => { st with expectations := st.expectations.dropLast ++ [f e] }

/-- `WithParams` (src/main.go lines 58-63): append the given values to the
last expectation's expected-parameter list. -/
def WithParams (st : DB) (ps : List Arg) : DB :=
  modifyLast st fun e => { e with Params := e.Params ++ ps }

/-- `WithOutput` (src/main.go lines 65-72): append a structural copy of each
given value to the last expectation's output list. -/
def WithOutput (st : DB) (os : List Value) : DB :=
  modifyLast st fun e => { e with Output := e.Output ++ os.map Copy }

/-- `WithError` (src/main.go lines 74-77): set the last expectation's
declared error. -/
def WithError (st : DB) (err : Err) : DB :=
  modifyLast st fun e => { e with Error := some err }

/-- `ExpectationsMet` (src/main.go lines 43-51). -/
def ExpectationsMet (st : DB) : Option Err :=
  match st.testErrors with
  | e :: _ => some e
  | [] => if st.index < st.expectations.length then some Err.notAllMet else none

/-- Whether `json.Marshal` succeeds on a value: it fails exactly on values
containing a non-serialisable kind (`vfunc`). -/
def serializable : Value → Bool
  | .vnull => true
  | .vbool _ => true
  | .vint _ => true
  | .vstr _ => true
  | .varrNil => true
  | .varrCons v w => serializable v && serializable w
  | .vfunc _ => false

/-- `deepCopy` (src/main.go lines 164-172): serialise `src` with
`json.Marshal` and deserialise into the cell referenced by `dst`.  On the
serialisable fragment the round trip is the identity, so a successful copy
overwrites the destination cell with `src`; a marshalling failure is
returned as an error and leaves the destination untouched. -/
def deepCopy (h : Heap) (src : Value) (dst : Nat) : Except Err Heap :=
  if serializable src then .ok (hupdate h dst src)
  else .error (Err.marshalError src)

/-- Result of running an embedded Go computation: a normal return or a
runtime panic carrying the runtime error message. -/
inductive Outcome (α : Type) where
  | ok : α → Outcome α
  | panicked : String → Outcome α
deriving Repr

/-- The Go runtime message for indexing a slice out of range. -/
def oobPanicMsg : String := "runtime error: index out of range"

/-- The Go runtime message for calling `Kind` on the nil `reflect.Type`
returned by `reflect.TypeOf(nil)`. -/
def nilKindPanicMsg : String :=
  "runtime error: invalid memory address or nil pointer dereference"

/-- The parameter-comparison loop of `verifyParams` (src/main.go lines
127-133): walk the observed and expected lists in step; the first position
whose values are not `reflect.DeepEqual` yields the mismatch error and the
loop returns. -/
def checkParamsLoop (h : Heap) (fn : String) : List Arg → List Arg → Option Err
  | p :: ps, e :: es =>
    if deepEqual h p e then checkParamsLoop h fn ps es
    else some (Err.paramMismatch p fn e)
  | _, _ => none

/-- `verifyParams` (src/main.go lines 118-136).  The method indexes
`it.expectations[it.index]`; an out-of-range index would panic in Go and is
modelled by `Outcome.panicked oobPanicMsg`. -/
def verifyParams (st : DB) (fn : String) (params : List Arg) : Outcome (Option Err) :=
  match st.expectations[st.index]? with
  | none => .panicked oobPanicMsg
  | some exp =>
    if exp.Params.length = 0 then .ok none
    else if exp.Params.length > params.length then .ok (some Err.notEnoughParams)
    else if exp.Params.length < params.length then .ok (some Err.tooManyParams)
    else .ok (checkParamsLoop st.heap fn params exp.Params)

/-- The projection loop of `setOutputParams` (src/main.go lines 143-155):
iterate over the observed parameters, breaking once the output list is
exhausted.  A nil argument panics (`reflect.TypeOf(nil)` is nil and `Kind`
dereferences it); a non-pointer argument returns the type error; a pointer
argument receives a `deepCopy` of the declared output — the error returned
by `deepCopy` is discarded by the source, so a failed copy leaves the cell
unchanged and the loop continues. -/
def projectOutputs (h : Heap) : List Arg → List Value → Outcome (Option Err × Heap)
  | [], _ => .ok (none, h)
  | _, [] => .ok (none, h)
  | p :: ps, o :: os =>
    match p with
    | .anil => .panicked nilKindPanicMsg
    | .val v => .ok (some (Err.outputNotPointer (kindOfValue v)), h)
    | .ptr r =>
      match deepCopy h o r with
      | .ok h1 => projectOutputs h1 ps os
      | .error _ => projectOutputs h ps os

/-- `setOutputParams` (src/main.go lines 138-158). -/
def setOutputParams (st : DB) (params : List Arg) : Outcome (Option Err × Heap) :=
  match st.expectations[st.index]? with
  | none => .panicked oobPanicMsg
  | some exp =>
    if exp.Output.length = 0 then .ok (none, st.heap)
    else projectOutputs st.heap params exp.Output

/-- `setError` (src/main.go lines 160-162): overwrite the handle's public
`Error` field with the current expectation's declared error. -/
def setError (st : DB) : Outcome DB :=
  match st.expectations[st.index]? with
  | none => .panicked oobPanicMsg
  | some exp => .ok { st with Error := exp.Error }

/-- `query` (src/main.go lines 79-106), the central matching step.  The
resolved operation name (`getFnName`, a call-stack inspection that cannot be
embedded directly) is passed as the `fnName` argument; every facade wrapper
below supplies its own name, which is what the resolver computes in normal
use. -/
def query (st : DB) (fnName : String) (params : List Arg) : Outcome DB :=
  if st.index ≥ st.expectations.length then
    .ok { st with testErrors := st.testErrors ++ [Err.unexpectedCall fnName] }
  else
    match st.expectations[st.index]? with
    | none => .panicked oobPanicMsg
    | some exp =>
      let st1 :=
        if fnName = exp.Function then st
        else { st with testErrors := st.testErrors ++ [Err.wrongFunction fnName exp.Function] }
      match verifyParams st1 fnName params with
      | .panicked m => .panicked m
      | .ok verr =>
        let st2 :=
          match verr with
          | some e => { st1 with testErrors := st1.testErrors ++ [e] }
          | none => st1
        match setOutputParams st2 params with
        | .panicked m => .panicked m
        | .ok (oerr, h1) =>
          let st3 := { st2 with heap := h1 }
          let st4 :=
            match oerr with
            | some e => { st3 with testErrors := st3.testErrors ++ [e] }
            | none => st3
          match setError st4 with
          | .panicked m => .panicked m
          | .ok st5 => .ok { st5 with index := st5.index + 1 }

/-- Run a sequence of intercepted calls, each given as the resolved
operation name together with its observed arguments. -/
def runCalls (st : DB) : List (String × List Arg) → Outcome DB
  | [] => .ok st
  | (fn, ps) :: rest =>
    match query st fn ps with
    | .panicked m => .panicked m
    | .ok st1 => runCalls st1 rest

/-- `Select` (src/main.go lines 187-190), one representative facade wrapper:
it forwards its arguments to `query` (the resolver reports the name
"Select") and returns the handle. -/
def Select (st : DB) (params : List Arg) : Outcome DB := query st "Select" params

/-- `First` (src/main.go lines 192-195). -/
def First (st : DB) (params : List Arg) : Outcome DB := query st "First" params

/-- `Create` (src/main.go lines 217-220). -/
def Create (st : DB) (value : Arg) : Outcome DB := query st "Create" [value]

/-- `Where` (src/main.go lines 232-235). -/
def Where (st : DB) (params : List Arg) : Outcome DB := query st "Where" params

/-- `Save` (src/main.go lines 212-215). -/
def Save (st : DB) (value : Arg) : Outcome DB := query st "Save" [value]

/-- Whether one call matches the expectation at the cursor in the sense of
claim C1: the resolved name agrees, the observed parameters are
`reflect.DeepEqual` to the declared ones position by position (an empty
declared list is the declared wildcard and matches exactly when no check is
wanted), and every position with a declared output carries a pointer
argument. -/
def callMatches (st : DB) (fn : String) (params : List Arg) : Bool :=
  match st.expectations[st.index]? with
  | none => false
  | some exp =>
    fn == exp.Function &&
    (exp.Params.isEmpty ||
      (params.length == exp.Params.length &&
        (params.zip exp.Params).all fun pr => deepEqual st.heap pr.1 pr.2)) &&
    (params.zip exp.Output).all fun pr => pr.1.isPtr

/-- Every call of the sequence matches the expectation at the cursor of the
state reached by running the preceding calls. -/
def callsMatch (st : DB) : List (String × List Arg) → Bool
  | [] => true
  | (fn, ps) :: rest =>
    callMatches st fn ps &&
    (match query st fn ps with
     | .ok st1 => callsMatch st1 rest
     | .panicked _ => false)

/-- The errors recorded for a sequence of excess calls: one
"unexpected call" error naming each operation, in call order. -/
def excessErrors (calls : List (String × List Arg)) : List Err :=
  calls.map fun c => Err.unexpectedCall c.1

/-- The state delivered by a normal return, if any. -/
def okState : Outcome DB → Option DB
  | .ok st => some st
  | .panicked _ => none

/-- Collected errors of a normal return (projection used to evaluate
concrete runs in closed statements). -/
def errorsOf (o : Outcome DB) : Option (List Err) :=
  (okState o).map DB.testErrors

/-- Cursor of a normal return. -/
def indexOf (o : Outcome DB) : Option Nat :=
  (okState o).map DB.index

/-- Content of one heap cell after a normal return. -/
def heapAt (o : Outcome DB) (r : Nat) : Option Value :=
  (okState o).map fun st => st.heap r

/-- Public `Error` field after a normal return. -/
def errorFieldOf (o : Outcome DB) : Option (Option Err) :=
  (okState o).map DB.Error

/-- Panic message of a panicking outcome. -/
def panicMsgOf : Outcome DB → Option String
  | .ok _ => none
  | .panicked m => some m

/-- Error component of a `deepCopy` result. -/
def exceptErrOf : Except Err Heap → Option Err
  | .ok _ => none
  | .error e => some e

/-- Whether an outcome is an out-of-range indexing panic. -/
def isOobPanic : Outcome DB → Bool
  | .ok _ => false
  | .panicked m => m == oobPanicMsg

/-- Whether an error is a parameter-value-mismatch error. -/
def isParamMismatchB : Err → Bool
  | .paramMismatch _ _ _ => true
  | _ => false

/-! ### Concrete fixtures used by witnesses and counterexamples -/

/-- A handle with two declared expectations:
`ExpectCall("Create").WithParams(5)` and
`ExpectCall("First").WithOutput("Alice").WithError(boom)`. -/
def stC1w : DB :=
  WithError (WithOutput (ExpectCall
    (WithParams (ExpectCall Open "Create") [Arg.val (Value.vint 5)]) "First")
    [Value.vstr "Alice"]) (Err.userErr "boom")

/-- The matching call sequence for `stC1w`. -/
def callsC1w : List (String × List Arg) :=
  [("Create", [Arg.val (Value.vint 5)]), ("First", [Arg.ptr 0])]

/-- A handle expecting `First` with one declared parameter and one declared
output value. -/
def stC4x : DB :=
  WithOutput (WithParams (ExpectCall Open "First") [Arg.val (Value.vint 1)]) [Value.vint 9]

/-- The single expectation stored in `stC4x`. -/
def expC4w : Expectation :=
  { Function := "First", Params := [Arg.val (Value.vint 1)],
    Output := [Value.vint 9], Error := none }

/-- A handle expecting `Create` with two declared parameters. -/
def stC5w : DB :=
  WithParams (ExpectCall Open "Create") [Arg.val (Value.vint 1), Arg.val (Value.vint 2)]

/-- The single expectation stored in `stC5w`. -/
def expC5w : Expectation :=
  { Function := "Create", Params := [Arg.val (Value.vint 1), Arg.val (Value.vint 2)],
    Output := [], Error := none }

/-- A handle with one declared expectation and cursor 0. -/
def stC6w : DB := ExpectCall Open "Create"

/-- A handle expecting `First` with two declared output values. -/
def stC7x : DB := WithOutput (ExpectCall Open "First") [Value.vint 1, Value.vint 2]

/-- A handle expecting `First` with one declared output value. -/
def stC7w : DB := WithOutput (ExpectCall Open "First") [Value.vstr "Alice"]

/-- The single expectation stored in `stC7w`. -/
def expC7w : Expectation :=
  { Function := "First", Params := [], Output := [Value.vstr "Alice"], Error := none }

/-- A handle expecting `First` with one declared output value. -/
def stC8x : DB := WithOutput (ExpectCall Open "First") [Value.vint 1]

/-- The single expectation stored in `stC8x`. -/
def expC8w : Expectation :=
  { Function := "First", Params := [], Output := [Value.vint 1], Error := none }

/-- A handle expecting `First` whose declared output is a non-serialisable
value (a function value). -/
def stC9x : DB := WithOutput (ExpectCall Open "First") [Value.vfunc 0]

/-! ### Supporting lemmas about the engine -/

theorem checkParamsLoop_none (h : Heap) (fn : String) :
    ∀ ps es : List Arg, (∀ pr ∈ ps.zip es, deepEqual h pr.1 pr.2 = true) →
      checkParamsLoop h fn ps es = none := by
  intro ps
  induction ps with
  | nil => intro es _; rfl
  | cons p ps ih =>
    intro es hall
    cases es with
    | nil => rfl
    | cons e es =>
      have hpe : deepEqual h p e = true := hall (p, e) (by simp)
      unfold checkParamsLoop
      rw [hpe]
      simp only [if_true]
      exact ih es fun pr hpr => hall pr (by simp [hpr])

theorem checkParamsLoop_first (h : Heap) (fn : String) (p e : Arg)
    (hne : deepEqual h p e = false) :
    ∀ ps1 es1 ps2 es2 : List Arg,
      ps1.length = es1.length →
      (∀ pr ∈ ps1.zip es1, deepEqual h pr.1 pr.2 = true) →
      checkParamsLoop h fn (ps1 ++ p :: ps2) (es1 ++ e :: es2)
        = some (Err.paramMismatch p fn e) := by
  intro ps1
  induction ps1 with
  | nil =>
    intro es1 ps2 es2 hlen _
    have : es1 = [] := List.length_eq_zero.mp hlen.symm
    subst this
    simp only [List.nil_append]
    unfold checkParamsLoop
    rw [hne]
    simp
  | cons a ps1 ih =>
    intro es1 ps2 es2 hlen hall
    cases es1 with
    | nil => simp at hlen
    | cons b es1 =>
      have hab : deepEqual h a b = true := hall (a, b) (by simp)
      simp only [List.cons_append]
      unfold checkParamsLoop
      rw [hab]
      simp only [if_true]
      exact ih es1 ps2 es2 (by simpa using hlen) fun pr hpr => hall pr (by simp [hpr])

theorem projectOutputs_ptrs_ok (ps : List Arg) :
    ∀ (os : List Value) (h : Heap),
      ((ps.zip os).all fun pr => pr.1.isPtr) = true →
      ∃ h', projectOutputs h ps os = .ok (none, h') := by
  induction ps with
  | nil => intro os h _; exact ⟨h, by cases os <;> rfl⟩
  | cons p ps ih =>
    intro os h hall
    cases os with
    | nil => exact ⟨h, rfl⟩
    | cons o os =>
      simp only [List.zip_cons_cons, List.all_cons, Bool.and_eq_true] at hall
      cases p with
      | val v => simp [Arg.isPtr] at hall
      | anil => simp [Arg.isPtr] at hall
      | ptr r =>
        unfold projectOutputs
        dsimp only
        cases hd : deepCopy h o r with
        | ok h1 => exact ih os h1 hall.2
        | error e => exact ih os h hall.2

theorem projectOutputs_writes (rs : List Nat) :
    ∀ (os : List Value) (h : Heap) (rest : List Arg),
      (rest = [] ∨ rs.length = os.length) →
      rs.length ≤ os.length →
      rs.Nodup →
      ((os.take rs.length).all serializable = true) →
      ∃ h', projectOutputs h (rs.map Arg.ptr ++ rest) os = .ok (none, h') ∧
        List.Forall₂ (fun r v => h' r = v) rs (os.take rs.length) ∧
        ∀ x, x ∉ rs → h' x = h x := by
  induction rs with
  | nil =>
    intro os h rest hrest _ _ _
    refine ⟨h, ?_, by simp, fun x _ => rfl⟩
    rcases hrest with hrest | hrest
    · subst hrest; cases os <;> rfl
    · have : os = [] := List.length_eq_zero.mp hrest.symm
      subst this
      cases rest <;> rfl
  | cons r rs ih =>
    intro os h rest hrest hle hnd hser
    cases os with
    | nil => simp at hle
    | cons o os =>
      simp only [List.length_cons, List.take_succ_cons, List.all_cons,
        Bool.and_eq_true] at hser hle ⊢
      have hnd' := List.nodup_cons.mp hnd
      have hrest' : rest = [] ∨ rs.length = os.length := by
        rcases hrest with hrest | hrest
        · exact Or.inl hrest
        · exact Or.inr (by simpa using hrest)
      obtain ⟨h', heq, hfa, hun⟩ :=
        ih os (hupdate h r o) rest hrest' (by omega) hnd'.2 hser.2
      refine ⟨h', ?_, ?_, ?_⟩
      · simp only [List.map_cons, List.cons_append]
        unfold projectOutputs
        dsimp only
        unfold deepCopy
        rw [hser.1]
        simp only [if_true]
        exact heq
      · refine List.Forall₂.cons ?_ hfa
        have : h' r = hupdate h r o r := hun r hnd'.1
        rw [this]
        unfold hupdate
        simp
      · intro x hx
        simp only [List.mem_cons, not_or] at hx
        have := hun x hx.2
        rw [this]
        unfold hupdate
        simp [hx.1]

theorem projectOutputs_stop (rs : List Nat) :
    ∀ (os : List Value) (h : Heap) (v : Value) (rest : List Arg),
      rs.length < os.length →
      ∃ h', projectOutputs h (rs.map Arg.ptr ++ Arg.val v :: rest) os
          = .ok (some (Err.outputNotPointer (kindOfValue v)), h') ∧
        ∀ x, x ∉ rs → h' x = h x := by
  induction rs with
  | nil =>
    intro os h v rest hlt
    cases os with
    | nil => simp at hlt
    | cons o os => exact ⟨h, rfl, fun x _ => rfl⟩
  | cons r rs ih =>
    intro os h v rest hlt
    cases os with
    | nil => simp at hlt
    | cons o os =>
      simp only [List.map_cons, List.cons_append]
      unfold projectOutputs
      dsimp only
      cases hd : deepCopy h o r with
      | ok h1 =>
        obtain ⟨h', heq, hun⟩ := ih os h1 v rest (by simpa using hlt)
        refine ⟨h', heq, ?_⟩
        intro x hx
        simp only [List.mem_cons, not_or] at hx
        rw [hun x hx.2]
        unfold deepCopy at hd
        by_cases hsv : serializable o = true
        · rw [hsv] at hd
          simp only [if_true] at hd
          injection hd with hd'
          rw [← hd']
          unfold hupdate
          simp [hx.1]
        · simp only [Bool.not_eq_true] at hsv
          rw [hsv] at hd
          simp at hd
      | error e =>
        obtain ⟨h', heq, hun⟩ := ih os h v rest (by simpa using hlt)
        exact ⟨h', heq, fun x hx => hun x (by simp only [List.mem_cons, not_or] at hx; exact hx.2)⟩

theorem verifyParams_depends (st st' : DB) (fn : String) (params : List Arg)
    (he : st'.expectations = st.expectations) (hi : st'.index = st.index)
    (hh : st'.heap = st.heap) :
    verifyParams st' fn params = verifyParams st fn params := by
  unfold verifyParams
  rw [he, hi, hh]

theorem setOutputParams_depends (st st' : DB) (params : List Arg)
    (he : st'.expectations = st.expectations) (hi : st'.index = st.index)
    (hh : st'.heap = st.heap) :
    setOutputParams st' params = setOutputParams st params := by
  unfold setOutputParams
  rw [he, hi, hh]

theorem verifyParams_ok (st : DB) (fn : String) (params : List Arg) (exp : Expectation)
    (hexp : st.expectations[st.index]? = some exp) :
    ∃ verr, verifyParams st fn params = .ok verr := by
  unfold verifyParams
  rw [hexp]
  by_cases h0 : exp.Params.length = 0
  · exact ⟨none, by simp [h0]⟩
  · by_cases h1 : exp.Params.length > params.length
    · exact ⟨some Err.notEnoughParams, by simp [h0, h1]⟩
    · by_cases h2 : exp.Params.length < params.length
      · exact ⟨some Err.tooManyParams, by simp [h0, h1, h2]⟩
      · exact ⟨checkParamsLoop st.heap fn params exp.Params, by simp [h0, h1, h2]⟩

theorem setOutputParams_char (st : DB) (params : List Arg) (exp : Expectation)
    (hexp : st.expectations[st.index]? = some exp) :
    setOutputParams st params = projectOutputs st.heap params exp.Output := by
  unfold setOutputParams
  rw [hexp]
  dsimp only
  by_cases h0 : exp.Output.length = 0
  · rw [if_pos h0]
    rw [List.length_eq_zero.mp h0]
    cases params <;> rfl
  · rw [if_neg h0]

theorem setError_eq (st : DB) (exp : Expectation)
    (hexp : st.expectations[st.index]? = some exp) :
    setError st = .ok { st with Error := exp.Error } := by
  unfold setError
  rw [hexp]

theorem query_eq_of_parts (st : DB) (fn : String) (params : List Arg) (exp : Expectation)
    (verr oerr : Option Err) (h1 : Heap)
    (hexp : st.expectations[st.index]? = some exp)
    (hv : verifyParams st fn params = .ok verr)
    (hs : setOutputParams st params = .ok (oerr, h1)) :
    query st fn params = .ok
      { Error := exp.Error, expectations := st.expectations, index := st.index + 1,
        testErrors := st.testErrors
          ++ (if fn = exp.Function then [] else [Err.wrongFunction fn exp.Function])
          ++ verr.toList ++ oerr.toList,
        heap := h1 } := by
  have hlt : st.index < st.expectations.length := (List.getElem?_eq_some.mp hexp).1
  have hv' : ∀ te : List Err, verifyParams { st with testErrors := te } fn params = .ok verr :=
    fun te => (verifyParams_depends st { st with testErrors := te } fn params rfl rfl rfl).trans hv
  have hs' : ∀ te : List Err, setOutputParams { st with testErrors := te } params = .ok (oerr, h1) :=
    fun te => (setOutputParams_depends st { st with testErrors := te } params rfl rfl rfl).trans hs
  unfold query
  rw [if_neg (by omega), hexp]
  dsimp only
  by_cases hfn : fn = exp.Function
  · simp only [if_pos hfn]
    cases verr with
    | none =>
      rw [hv]; dsimp only
      rw [hs]; dsimp only
      cases oerr with
      | none =>
        dsimp only; unfold setError; dsimp only; rw [hexp]; dsimp only; simp
      | some oe =>
        dsimp only; unfold setError; dsimp only; rw [hexp]; dsimp only; simp
    | some ve =>
      rw [hv]; dsimp only
      rw [hs']; dsimp only
      cases oerr with
      | none =>
        dsimp only; unfold setError; dsimp only; rw [hexp]; dsimp only; simp
      | some oe =>
        dsimp only; unfold setError; dsimp only; rw [hexp]; dsimp only; simp
  · simp only [if_neg hfn]
    cases verr with
    | none =>
      rw [hv']; dsimp only
      rw [hs']; dsimp only
      cases oerr with
      | none =>
        dsimp only; unfold setError; dsimp only; rw [hexp]; dsimp only; simp
      | some oe =>
        dsimp only; unfold setError; dsimp only; rw [hexp]; dsimp only; simp
    | some ve =>
      rw [hv']; dsimp only
      rw [hs']; dsimp only
      cases oerr with
      | none =>
        dsimp only; unfold setError; dsimp only; rw [hexp]; dsimp only; simp
      | some oe =>
        dsimp only; unfold setError; dsimp only; rw [hexp]; dsimp only; simp

theorem query_eq_panic_of_setOutput (st : DB) (fn : String) (params : List Arg)
    (exp : Expectation) (verr : Option Err) (m : String)
    (hexp : st.expectations[st.index]? = some exp)
    (hv : verifyParams st fn params = .ok verr)
    (hs : setOutputParams st params = .panicked m) :
    query st fn params = .panicked m := by
  have hlt : st.index < st.expectations.length := (List.getElem?_eq_some.mp hexp).1
  have hv' : ∀ te : List Err, verifyParams { st with testErrors := te } fn params = .ok verr :=
    fun te => (verifyParams_depends st { st with testErrors := te } fn params rfl rfl rfl).trans hv
  have hs' : ∀ te : List Err, setOutputParams { st with testErrors := te } params = .panicked m :=
    fun te => (setOutputParams_depends st { st with testErrors := te } params rfl rfl rfl).trans hs
  unfold query
  rw [if_neg (by omega), hexp]
  dsimp only
  by_cases hfn : fn = exp.Function
  · simp only [if_pos hfn]
    cases verr with
    | none => rw [hv]; dsimp only; rw [hs]
    | some ve => rw [hv]; dsimp only; rw [hs']
  · simp only [if_neg hfn]
    cases verr with
    | none => rw [hv']; dsimp only; rw [hs']
    | some ve => rw [hv']; dsimp only; rw [hs']

theorem query_ok_inv (st : DB) (fn : String) (params : List Arg) (st2 : DB)
    (h : query st fn params = .ok st2) :
    (st.expectations.length ≤ st.index ∧
       st2 = { st with testErrors := st.testErrors ++ [Err.unexpectedCall fn] }) ∨
    (st.index < st.expectations.length ∧ ∃ exp verr oerr h1,
       st.expectations[st.index]? = some exp ∧
       verifyParams st fn params = .ok verr ∧
       setOutputParams st params = .ok (oerr, h1) ∧
       st2 = { Error := exp.Error, expectations := st.expectations, index := st.index + 1,
               testErrors := st.testErrors
                 ++ (if fn = exp.Function then [] else [Err.wrongFunction fn exp.Function])
                 ++ verr.toList ++ oerr.toList,
               heap := h1 }) := by
  by_cases hge : st.expectations.length ≤ st.index
  · left
    refine ⟨hge, ?_⟩
    unfold query at h
    rw [if_pos (by omega)] at h
    injection h with h'
    exact h'.symm
  · right
    have hlt : st.index < st.expectations.length := by omega
    have hexp : st.expectations[st.index]? = some st.expectations[st.index] :=
      List.getElem?_eq_getElem hlt
    obtain ⟨verr, hv⟩ := verifyParams_ok st fn params _ hexp
    cases hs : setOutputParams st params with
    | panicked m =>
      rw [query_eq_panic_of_setOutput st fn params _ verr m hexp hv hs] at h
      exact absurd h (by simp)
    | ok p =>
      obtain ⟨oerr, h1⟩ := p
      refine ⟨hlt, st.expectations[st.index], verr, oerr, h1, hexp, hv, rfl, ?_⟩
      rw [query_eq_of_parts st fn params _ verr oerr h1 hexp hv hs] at h
      injection h with h'
      exact h'.symm

theorem query_matched (st : DB) (fn : String) (params : List Arg) (exp : Expectation)
    (hexp : st.expectations[st.index]? = some exp)
    (hm : callMatches st fn params = true) :
    ∃ h', query st fn params = .ok
      { Error := exp.Error, expectations := st.expectations, index := st.index + 1,
        testErrors := st.testErrors, heap := h' } := by
  unfold callMatches at hm
  rw [hexp] at hm
  dsimp only at hm
  simp only [Bool.and_eq_true, Bool.or_eq_true, beq_iff_eq, List.all_eq_true] at hm
  obtain ⟨⟨hfn, hpm⟩, hptr⟩ := hm
  have hv : verifyParams st fn params = .ok none := by
    unfold verifyParams
    rw [hexp]
    rcases hpm with hpm | hpm
    · have h0 : exp.Params.length = 0 := by
        simp [List.isEmpty_iff.mp hpm]
      simp [h0]
    · obtain ⟨hlen, hall⟩ := hpm
      by_cases hz : exp.Params.length = 0
      · simp [hz]
      · have h0 : ¬ exp.Params.length > params.length := by omega
        have h1 : ¬ exp.Params.length < params.length := by omega
        simp only [if_neg hz, if_neg h0, if_neg h1]
        rw [checkParamsLoop_none st.heap fn params exp.Params hall]
  obtain ⟨h', hs⟩ : ∃ h', setOutputParams st params = .ok (none, h') := by
    rw [setOutputParams_char st params exp hexp]
    exact projectOutputs_ptrs_ok params exp.Output st.heap (by simpa [List.all_eq_true] using hptr)
  refine ⟨h', ?_⟩
  rw [query_eq_of_parts st fn params exp none none h' hexp hv hs]
  simp [hfn]

theorem runCalls_matched (calls : List (String × List Arg)) :
    ∀ st : DB, callsMatch st calls = true →
      calls.length + st.index = st.expectations.length →
      ∃ st', runCalls st calls = .ok st' ∧
        st'.testErrors = st.testErrors ∧
        st'.expectations = st.expectations ∧
        st'.index = st.expectations.length ∧
        st'.Error = (if calls = [] then st.Error
          else (st.expectations.getLast?).bind Expectation.Error) := by
  induction calls with
  | nil =>
    intro st _ hlen
    simp only [List.length_nil, Nat.zero_add] at hlen
    exact ⟨st, rfl, rfl, rfl, hlen, by simp⟩
  | cons c rest ih =>
    obtain ⟨fn, ps⟩ := c
    intro st hm hlen
    simp only [List.length_cons] at hlen
    unfold callsMatch at hm
    simp only [Bool.and_eq_true] at hm
    obtain ⟨hcm, hrest⟩ := hm
    have hlt : st.index < st.expectations.length := by omega
    have hexp : st.expectations[st.index]? = some st.expectations[st.index] :=
      List.getElem?_eq_getElem hlt
    obtain ⟨h', hq⟩ := query_matched st fn ps _ hexp hcm
    rw [hq] at hrest
    dsimp only at hrest
    obtain ⟨st', hrun, hte, hexps, hidx, herr⟩ :=
      ih _ hrest (by simp only [DB.index, DB.expectations]; omega)
    refine ⟨st', ?_, hte, hexps, hidx, ?_⟩
    · unfold runCalls
      rw [hq]
      dsimp only
      exact hrun
    · rw [if_neg (by simp)]
      cases rest with
      | nil =>
        simp only [List.length_nil] at hlen
        rw [if_pos rfl] at herr
        rw [herr]
        dsimp only
        rw [List.getLast?_eq_getElem? st.expectations]
        have hn : st.expectations.length - 1 = st.index := by omega
        rw [hn, hexp]
        rfl
      | cons d rest2 =>
        rw [if_neg (by simp)] at herr
        exact herr

theorem projectOutputs_panic (ps : List Arg) :
    ∀ (os : List Value) (h : Heap) (m : String),
      projectOutputs h ps os = .panicked m → m = nilKindPanicMsg := by
  induction ps with
  | nil => intro os h m hm; simp [projectOutputs] at hm
  | cons p ps ih =>
    intro os h m hm
    cases os with
    | nil => simp [projectOutputs] at hm
    | cons o os =>
      cases p with
      | anil =>
        simp [projectOutputs] at hm
        exact hm.symm
      | val v => simp [projectOutputs] at hm
      | ptr r =>
        unfold projectOutputs at hm
        dsimp only at hm
        cases hd : deepCopy h o r with
        | ok h1 => rw [hd] at hm; exact ih os h1 m hm
        | error e => rw [hd] at hm; exact ih os h m hm

theorem query_unexpected (st : DB) (fn : String) (params : List Arg)
    (hge : st.expectations.length ≤ st.index) :
    query st fn params
      = .ok { st with testErrors := st.testErrors ++ [Err.unexpectedCall fn] } := by
  unfold query
  rw [if_pos (by omega)]

theorem runCalls_excess (calls : List (String × List Arg)) :
    ∀ st : DB, st.expectations.length ≤ st.index →
      runCalls st calls
        = .ok { st with testErrors := st.testErrors ++ excessErrors calls } := by
  induction calls with
  | nil =>
    intro st _
    show Outcome.ok st = _
    rw [excessErrors, List.map_nil, List.append_nil]
  | cons c rest ih =>
    obtain ⟨fn, ps⟩ := c
    intro st hge
    unfold runCalls
    rw [query_unexpected st fn ps hge]
    dsimp only
    rw [ih _ (by dsimp only; omega)]
    dsimp only
    unfold excessErrors
    rw [List.map_cons, List.append_assoc]
    rfl

theorem query_panic_inv (st : DB) (fn : String) (params : List Arg) (m : String)
    (h : query st fn params = .panicked m) : m = nilKindPanicMsg := by
  by_cases hge : st.expectations.length ≤ st.index
  · rw [query_unexpected st fn params hge] at h
    exact absurd h (by simp)
  · have hlt : st.index < st.expectations.length := by omega
    have hexp : st.expectations[st.index]? = some st.expectations[st.index] :=
      List.getElem?_eq_getElem hlt
    obtain ⟨verr, hv⟩ := verifyParams_ok st fn params _ hexp
    cases hs : setOutputParams st params with
    | ok p =>
      obtain ⟨oerr, h1⟩ := p
      rw [query_eq_of_parts st fn params _ verr oerr h1 hexp hv hs] at h
      exact absurd h (by simp)
    | panicked m2 =>
      rw [query_eq_panic_of_setOutput st fn params _ verr m2 hexp hv hs] at h
      injection h with h2
      rw [setOutputParams_char st params _ hexp] at hs
      rw [← h2]
      exact projectOutputs_panic params st.expectations[st.index].Output st.heap m2 hs

theorem projectOutputs_err (ps : List Arg) :
    ∀ (os : List Value) (h : Heap) (e : Err) (h2 : Heap),
      projectOutputs h ps os = .ok (some e, h2) →
      ∃ k, e = Err.outputNotPointer k := by
  induction ps with
  | nil => intro os h e h2 hm; cases os <;> simp [projectOutputs] at hm
  | cons p ps ih =>
    intro os h e h2 hm
    cases os with
    | nil => simp [projectOutputs] at hm
    | cons o os =>
      cases p with
      | anil => simp [projectOutputs] at hm
      | val v =>
        simp [projectOutputs] at hm
        exact ⟨kindOfValue v, hm.1.symm⟩
      | ptr r =>
        unfold projectOutputs at hm
        dsimp only at hm
        cases hd : deepCopy h o r with
        | ok h1 => rw [hd] at hm; exact ih os h1 e h2 hm
        | error e2 => rw [hd] at hm; exact ih os h e h2 hm

/-! ### Claim theorems -/

/-- C1: for every handle on which N expectations were declared, if exactly
the same N operations are invoked in declaration order with parameters
deep-structurally equal to the declared ones (and pointer arguments wherever
outputs were declared), `ExpectationsMet` returns nil and the handle's
public `Error` field equals the last expectation's declared error, or nil if
none was declared. -/
theorem C1_all_matched (st : DB) (calls : List (String × List Arg))
    (hidx : st.index = 0) (hte : st.testErrors = []) (hE : st.Error = none)
    (hN : calls.length = st.expectations.length)
    (hm : callsMatch st calls = true) :
    ∃ st', runCalls st calls = .ok st' ∧ ExpectationsMet st' = none ∧
      st'.Error = (st.expectations.getLast?).bind Expectation.Error := by
  obtain ⟨st', hrun, hte', hexps, hidx', herr⟩ :=
    runCalls_matched calls st hm (by omega)
  refine ⟨st', hrun, ?_, ?_⟩
  · unfold ExpectationsMet
    rw [hte', hte]
    dsimp only
    rw [if_neg (by rw [hidx', hexps]; omega)]
  · by_cases hc : calls = []
    · rw [if_pos hc] at herr
      rw [herr, hE]
      have hnil : st.expectations = [] := by
        refine List.length_eq_zero.mp ?_
        rw [← hN, hc]
        rfl
      rw [hnil]
      rfl
    · rw [if_neg hc] at herr
      exact herr

/-- Witness for C1 at a concrete two-expectation handle: the matching run
meets all expectations and leaves the last declared error in `Error`. -/
theorem C1_all_matched_witness :
    ∃ st', runCalls stC1w callsC1w = .ok st' ∧ ExpectationsMet st' = none ∧
      st'.Error = (stC1w.expectations.getLast?).bind Expectation.Error :=
  C1_all_matched stC1w callsC1w (by decide) (by decide) (by decide)
    (by decide) (by decide)

/-- C2: `ExpectationsMet` returns the first collected error whenever the
collected-errors list is non-empty; otherwise, if the cursor is still less
than the number of declared expectations, it returns the generic
"not all expectations met" error; otherwise it returns nil. -/
theorem C2_expectationsMet_cases (st : DB) :
    (∀ e rest, st.testErrors = e :: rest → ExpectationsMet st = some e) ∧
    (st.testErrors = [] → st.index < st.expectations.length →
      ExpectationsMet st = some Err.notAllMet) ∧
    (st.testErrors = [] → st.expectations.length ≤ st.index →
      ExpectationsMet st = none) := by
  refine ⟨?_, ?_, ?_⟩
  · intro e rest h
    unfold ExpectationsMet
    rw [h]
  · intro h hlt
    unfold ExpectationsMet
    rw [h]
    dsimp only
    rw [if_pos hlt]
  · intro h hge
    unfold ExpectationsMet
    rw [h]
    dsimp only
    rw [if_neg (by omega)]

/-- Witness for C2: on a handle whose collected errors are
`[x, y]`, verification returns exactly `x`, the first of them. -/
theorem C2_expectationsMet_cases_witness :
    ExpectationsMet
      { Error := none, expectations := [], index := 0,
        testErrors := [Err.userErr "x", Err.userErr "y"],
        heap := fun _ => Value.vnull }
      = some (Err.userErr "x") :=
  (C2_expectationsMet_cases _).1 (Err.userErr "x") [Err.userErr "y"] rfl

/-- C3: when an operation is invoked with the cursor at or past the end of
the expectation list, exactly one "unexpected call" error naming the
operation is appended and the cursor does not move; M excess calls append
exactly M such errors, and `ExpectationsMet` then returns the first one. -/
theorem C3_unexpected_calls (st : DB) (calls : List (String × List Arg))
    (hge : st.expectations.length ≤ st.index) :
    (∀ fn params, query st fn params
        = .ok { st with testErrors := st.testErrors ++ [Err.unexpectedCall fn] }) ∧
    runCalls st calls
      = .ok { st with testErrors := st.testErrors ++ excessErrors calls } ∧
    (st.testErrors = [] →
      ExpectationsMet { st with testErrors := st.testErrors ++ excessErrors calls }
        = calls.head?.map fun c => Err.unexpectedCall c.1) := by
  refine ⟨fun fn params => query_unexpected st fn params hge, runCalls_excess calls st hge, ?_⟩
  intro hte
  rw [hte]
  cases calls with
  | nil =>
    unfold ExpectationsMet excessErrors
    dsimp only
    rw [if_neg (by omega)]
    rfl
  | cons c rest =>
    unfold ExpectationsMet excessErrors
    dsimp only
    rfl

/-- Witness for C3: two calls on a handle with no declared expectations
record two "unexpected call" errors and verification returns the first. -/
theorem C3_unexpected_calls_witness :
    runCalls Open [("Where", [Arg.val (Value.vint 1)]), ("Save", [])]
      = .ok { Open with testErrors :=
          Open.testErrors ++ excessErrors [("Where", [Arg.val (Value.vint 1)]), ("Save", [])] } ∧
    ExpectationsMet { Open with testErrors :=
        Open.testErrors ++ excessErrors [("Where", [Arg.val (Value.vint 1)]), ("Save", [])] }
      = some (Err.unexpectedCall "Where") := by
  have h := C3_unexpected_calls Open [("Where", [Arg.val (Value.vint 1)]), ("Save", [])] (by decide)
  exact ⟨h.2.1, by rw [h.2.2 rfl]; rfl⟩

/-- Counterexample to C4 as stated: at a concrete expectation declaring one
parameter and one output, a call with two (non-pointer) arguments records
the count-mismatch error AND an output-projection error — the
output-projection checks are not aborted by a parameter-count mismatch
(src/main.go line 98 runs `setOutputParams` unconditionally after
`verifyParams`). -/
theorem C4_count_mismatch_cex :
    errorsOf (query stC4x "First" [Arg.val (Value.vint 2), Arg.val (Value.vint 3)])
      = some [Err.tooManyParams, Err.outputNotPointer "int"] ∧
    Err.outputNotPointer "int" ≠ Err.tooManyParams := by decide

/-- C4 (amended): if the next expectation declares K >= 1 expected
parameters and the operation is invoked with a different number of observed
parameters, exactly one count-mismatch error ("too many" or "not enough"
parameters) is recorded by the parameter check, the per-position parameter
comparison is aborted (the check's result does not depend on the argument
values), and the cursor still advances by exactly one; the output-projection
step is NOT aborted — it still runs and its effect and possible error also
reach the final state. -/
theorem C4_count_mismatch_amended (st : DB) (fn : String) (params : List Arg)
    (exp : Expectation)
    (hexp : st.expectations[st.index]? = some exp)
    (hK : exp.Params.length ≠ 0)
    (hne : params.length ≠ exp.Params.length) :
    verifyParams st fn params
      = .ok (some (if params.length < exp.Params.length
          then Err.notEnoughParams else Err.tooManyParams)) ∧
    (∀ params2 : List Arg, params2.length = params.length →
      verifyParams st fn params2 = verifyParams st fn params) ∧
    (∀ st2, query st fn params = .ok st2 →
      st2.index = st.index + 1 ∧
      ∃ oerr h1, setOutputParams st params = .ok (oerr, h1) ∧ st2.heap = h1 ∧
        st2.testErrors = st.testErrors
          ++ (if fn = exp.Function then [] else [Err.wrongFunction fn exp.Function])
          ++ [if params.length < exp.Params.length
              then Err.notEnoughParams else Err.tooManyParams]
          ++ oerr.toList) := by
  have key : ∀ q : List Arg, q.length = params.length →
      verifyParams st fn q
        = .ok (some (if params.length < exp.Params.length
            then Err.notEnoughParams else Err.tooManyParams)) := by
    intro q hq
    unfold verifyParams
    rw [hexp]
    dsimp only
    rw [if_neg hK]
    by_cases hgt : exp.Params.length > q.length
    · rw [if_pos hgt, if_pos (by omega)]
    · rw [if_neg hgt, if_pos (by omega), if_neg (by omega)]
  refine ⟨key params rfl, fun params2 h2 => by rw [key params2 h2, key params rfl], ?_⟩
  intro st2 hq
  rcases query_ok_inv st fn params st2 hq with ⟨hge, _⟩ | ⟨_, exp2, verr, oerr, h1, hexp2, hv, hs, hst2⟩
  · have := (List.getElem?_eq_some.mp hexp).1
    omega
  · have hee : exp2 = exp := by
      rw [hexp] at hexp2
      injection hexp2 with h3
      exact h3.symm
    rw [hee] at hst2
    have hverr : verr = some (if params.length < exp.Params.length
        then Err.notEnoughParams else Err.tooManyParams) := by
      rw [key params rfl] at hv
      injection hv with h3
      exact h3.symm
    subst hverr
    subst hst2
    exact ⟨rfl, oerr, h1, hs, rfl, by simp⟩

/-- Witness for the amended C4: at a concrete expectation with one declared
parameter, a two-argument call yields exactly the "too many parameters"
error from the parameter check. -/
theorem C4_count_mismatch_amended_witness :
    verifyParams stC4x "First" [Arg.val (Value.vint 2), Arg.val (Value.vint 3)]
      = .ok (some Err.tooManyParams) := by
  have h := C4_count_mismatch_amended stC4x "First"
    [Arg.val (Value.vint 2), Arg.val (Value.vint 3)] expC4w
    (by decide) (by decide) (by decide)
  simpa using h.1

/-- C5: when the next expectation's expected-parameter list is non-empty and
matches the observed count, the values are compared position by position
with deep structural equality (pointer identity irrelevant); no parameter
error is recorded when every position matches, and otherwise the single
recorded parameter error names the first mismatching position's observed and
expected values; a call records at most one parameter-mismatch error. -/
theorem C5_param_comparison (st : DB) (fn : String) (params : List Arg)
    (exp : Expectation)
    (hexp : st.expectations[st.index]? = some exp)
    (hK : exp.Params ≠ [])
    (hlen : params.length = exp.Params.length) :
    ((∀ pr ∈ params.zip exp.Params, deepEqual st.heap pr.1 pr.2 = true) →
      verifyParams st fn params = .ok none) ∧
    (∀ ps1 p ps2 es1 e es2, params = ps1 ++ p :: ps2 → exp.Params = es1 ++ e :: es2 →
      ps1.length = es1.length →
      (∀ pr ∈ ps1.zip es1, deepEqual st.heap pr.1 pr.2 = true) →
      deepEqual st.heap p e = false →
      verifyParams st fn params = .ok (some (Err.paramMismatch p fn e))) ∧
    (∀ r s, st.heap r = st.heap s → deepEqual st.heap (Arg.ptr r) (Arg.ptr s) = true) ∧
    (∀ st2, query st fn params = .ok st2 →
      st2.testErrors.countP isParamMismatchB
        ≤ st.testErrors.countP isParamMismatchB + 1) := by
  have hz : exp.Params.length ≠ 0 := by
    intro h0
    exact hK (List.length_eq_zero.mp h0)
  have hshape : ∀ r : Option Err, checkParamsLoop st.heap fn params exp.Params = r →
      verifyParams st fn params = .ok r := by
    intro r hr
    unfold verifyParams
    rw [hexp]
    dsimp only
    rw [if_neg hz, if_neg (by omega), if_neg (by omega)]
    rw [hr]
  refine ⟨?_, ?_, ?_, ?_⟩
  · intro hall
    exact hshape none (checkParamsLoop_none st.heap fn params exp.Params hall)
  · intro ps1 p ps2 es1 e es2 hp he hl hall hne
    refine hshape (some (Err.paramMismatch p fn e)) ?_
    rw [hp, he]
    exact checkParamsLoop_first st.heap fn p e hne ps1 es1 ps2 es2 hl hall
  · intro r s hrs
    simp [deepEqual, hrs]
  · intro st2 hq
    rcases query_ok_inv st fn params st2 hq with ⟨hge, _⟩ | ⟨_, exp2, verr, oerr, h1, hexp2, hv, hs, hst2⟩
    · have := (List.getElem?_eq_some.mp hexp).1
      omega
    · subst hst2
      dsimp only
      rw [List.countP_append, List.countP_append, List.countP_append]
      have hname : List.countP isParamMismatchB
          (if fn = exp2.Function then [] else [Err.wrongFunction fn exp2.Function]) = 0 := by
        split <;> simp [isParamMismatchB, List.countP_cons]
      have hverr : List.countP isParamMismatchB verr.toList ≤ 1 := by
        cases verr <;> simp [List.countP_cons]
        split <;> omega
      have hoerr : List.countP isParamMismatchB oerr.toList = 0 := by
        cases oerr with
        | none => rfl
        | some e =>
          rw [setOutputParams_char st params exp2 hexp2] at hs
          obtain ⟨k, hk⟩ := projectOutputs_err params exp2.Output st.heap e h1 hs
          subst hk
          simp [isParamMismatchB, List.countP_cons]
      omega

/-- Witness for C5 at a concrete two-parameter expectation: a call whose
second argument differs yields exactly the mismatch error for that first
failing position. -/
theorem C5_param_comparison_witness :
    verifyParams stC5w "Create" [Arg.val (Value.vint 1), Arg.val (Value.vint 99)]
      = .ok (some (Err.paramMismatch (Arg.val (Value.vint 99)) "Create"
          (Arg.val (Value.vint 2)))) := by
  have h := C5_param_comparison stC5w "Create"
    [Arg.val (Value.vint 1), Arg.val (Value.vint 99)] expC5w
    (by decide) (by decide) (by decide)
  exact h.2.1 [Arg.val (Value.vint 1)] (Arg.val (Value.vint 99)) []
    [Arg.val (Value.vint 1)] (Arg.val (Value.vint 2)) []
    rfl rfl rfl (by decide) (by decide)

/-- C6: the cursor starts at 0 and never decreases; every recognized call
(one that returns while the cursor is below the number of declared
expectations, whatever mismatches it records) advances it by exactly one;
excess calls and the declaration operations leave it unchanged
(verification, `ExpectationsMet`, is a pure read and has no state effect in
this embedding). -/
theorem C6_cursor_monotone :
    Open.index = 0 ∧
    (∀ (st : DB) (fn : String) (params : List Arg) (st2 : DB),
      query st fn params = .ok st2 → st.index ≤ st2.index) ∧
    (∀ (st : DB) (fn : String) (params : List Arg) (st2 : DB),
      st.index < st.expectations.length →
      query st fn params = .ok st2 → st2.index = st.index + 1) ∧
    (∀ (st : DB) (fn : String) (params : List Arg) (st2 : DB),
      st.expectations.length ≤ st.index →
      query st fn params = .ok st2 → st2.index = st.index) ∧
    (∀ (st : DB) (fn : String), (ExpectCall st fn).index = st.index) ∧
    (∀ (st : DB) (ps : List Arg), (WithParams st ps).index = st.index) ∧
    (∀ (st : DB) (os : List Value), (WithOutput st os).index = st.index) ∧
    (∀ (st : DB) (e : Err), (WithError st e).index = st.index) := by
  have hml : ∀ (st : DB) (f : Expectation → Expectation),
      (modifyLast st f).index = st.index := by
    intro st f
    unfold modifyLast
    cases st.expectations.getLast? <;> rfl
  refine ⟨rfl, ?_, ?_, ?_, fun st fn => rfl, fun st ps => hml _ _,
    fun st os => hml _ _, fun st e => hml _ _⟩
  · intro st fn params st2 hq
    rcases query_ok_inv st fn params st2 hq with ⟨_, hst2⟩ | ⟨_, _, _, _, _, _, _, _, hst2⟩ <;>
      subst hst2 <;> dsimp only <;> omega
  · intro st fn params st2 hlt hq
    rcases query_ok_inv st fn params st2 hq with ⟨hge, _⟩ | ⟨_, _, _, _, _, _, _, _, hst2⟩
    · omega
    · subst hst2; rfl
  · intro st fn params st2 hge hq
    rcases query_ok_inv st fn params st2 hq with ⟨_, hst2⟩ | ⟨hlt, _, _, _, _, _, _, _, _⟩
    · subst hst2; rfl
    · omega

/-- Witness for C6: a recognized call on a concrete one-expectation handle
advances the cursor from 0 to 1. -/
theorem C6_cursor_monotone_witness :
    ∃ st2, query stC6w "Create" [] = .ok st2 ∧ st2.index = stC6w.index + 1 :=
  ⟨_, rfl, C6_cursor_monotone.2.2.1 stC6w "Create" [] _ (by decide) rfl⟩

/-- Counterexample to C7 as stated: with outputs `[1, 2]` declared and the
call `First(&x, &x)` passing the same pointer at both output positions, the
first argument's referent ends up holding `2`, the second declared output,
not the first — the per-position conclusion of the claim fails under
aliasing (the projection loop of src/main.go lines 143-155 writes the
positions in order into the same destination). -/
theorem C7_output_projection_cex :
    heapAt (query stC7x "First" [Arg.ptr 0, Arg.ptr 0]) 0 = some (Value.vint 2) ∧
    stC7x.expectations.map Expectation.Output = [[Value.vint 1, Value.vint 2]] ∧
    some (Value.vint 2) ≠ some (Value.vint 1) := by decide

/-- C7 (amended): if an expectation declares output values and the matching
operation is invoked with pointer-typed arguments at the corresponding
positions referencing pairwise-distinct destinations, then after the call
each such argument's referent is structurally equal to the corresponding
declared output value (for serialisable values), independent of the
destinations' prior contents (the initial heap is arbitrary), and all other
cells are untouched; with aliased destinations later outputs overwrite
earlier ones. -/
theorem C7_output_projection_amended (st : DB) (fn : String) (params : List Arg)
    (exp : Expectation) (rs : List Nat)
    (hexp : st.expectations[st.index]? = some exp)
    (hps : params.take exp.Output.length = rs.map Arg.ptr)
    (hnd : rs.Nodup)
    (hser : (exp.Output.take rs.length).all serializable = true) :
    ∃ st', query st fn params = .ok st' ∧
      List.Forall₂ (fun r v => st'.heap r = v) rs (exp.Output.take rs.length) ∧
      (∀ x, x ∉ rs → st'.heap x = st.heap x) ∧
      st'.index = st.index + 1 := by
  have hrs_len : rs.length = min exp.Output.length params.length := by
    have := congrArg List.length hps
    simpa [List.length_take, List.length_map] using this.symm
  have hsplit : params = rs.map Arg.ptr ++ params.drop exp.Output.length := by
    rw [← hps]
    exact (List.take_append_drop _ _).symm
  have hrest : params.drop exp.Output.length = [] ∨ rs.length = exp.Output.length := by
    by_cases hc : params.length ≤ exp.Output.length
    · exact Or.inl (List.drop_eq_nil_of_le hc)
    · right; omega
  have hle : rs.length ≤ exp.Output.length := by omega
  obtain ⟨h1, heq, hfa, hun⟩ :=
    projectOutputs_writes rs exp.Output st.heap (params.drop exp.Output.length)
      hrest hle hnd hser
  have hs : setOutputParams st params = .ok (none, h1) := by
    rw [setOutputParams_char st params exp hexp, hsplit]
    exact heq
  obtain ⟨verr, hv⟩ := verifyParams_ok st fn params exp hexp
  refine ⟨_, query_eq_of_parts st fn params exp verr none h1 hexp hv hs, ?_, ?_, rfl⟩
  · exact hfa
  · exact hun

/-- Witness for the amended C7: declaring output "Alice" and calling
`First(&x)` leaves "Alice" in the referenced cell. -/
theorem C7_output_projection_amended_witness :
    ∃ st', query stC7w "First" [Arg.ptr 0] = .ok st' ∧
      List.Forall₂ (fun r v => st'.heap r = v) [0] (expC7w.Output.take [0].length) ∧
      (∀ x, x ∉ [0] → st'.heap x = stC7w.heap x) ∧
      st'.index = stC7w.index + 1 :=
  C7_output_projection_amended stC7w "First" [Arg.ptr 0] expC7w [0]
    (by decide) (by decide) (by decide) (by decide)

/-- Counterexample to C8 as stated: with an output declared at position 0,
invoking the operation with the untyped nil interface — an argument that is
not of pointer kind — panics (`reflect.TypeOf(nil)` is nil and calling
`Kind` on it dereferences a nil pointer, src/main.go lines 148-149) instead
of recording the type error: the call does crash and no error is
collected. -/
theorem C8_output_not_pointer_cex :
    panicMsgOf (query stC8x "First" [Arg.anil]) = some nilKindPanicMsg ∧
    errorsOf (query stC8x "First" [Arg.anil]) = none := by decide

/-- C8 (amended): if an output value was declared for a parameter position
whose observed argument is non-nil and not of pointer kind, the projection
step records the "out parameters must be pointers" type error, stops
projecting outputs for the remaining positions of this call (no cell beyond
the earlier pointer positions is written), does not crash, and the cursor
still advances; a nil argument at such a position crashes instead. -/
theorem C8_output_not_pointer_amended (st : DB) (fn : String) (params : List Arg)
    (exp : Expectation) (rs : List Nat) (v : Value) (rest : List Arg)
    (hexp : st.expectations[st.index]? = some exp)
    (hp : params = rs.map Arg.ptr ++ Arg.val v :: rest)
    (hlen : rs.length < exp.Output.length) :
    ∃ st', query st fn params = .ok st' ∧
      Err.outputNotPointer (kindOfValue v) ∈ st'.testErrors ∧
      (∀ x, x ∉ rs → st'.heap x = st.heap x) ∧
      st'.index = st.index + 1 := by
  obtain ⟨h1, heq, hun⟩ :=
    projectOutputs_stop rs exp.Output st.heap v rest hlen
  have hs : setOutputParams st params
      = .ok (some (Err.outputNotPointer (kindOfValue v)), h1) := by
    rw [setOutputParams_char st params exp hexp, hp]
    exact heq
  obtain ⟨verr, hv⟩ := verifyParams_ok st fn params exp hexp
  refine ⟨_, query_eq_of_parts st fn params exp verr
    (some (Err.outputNotPointer (kindOfValue v))) h1 hexp hv hs, ?_, hun, rfl⟩
  dsimp only
  simp

/-- Witness for the amended C8: a non-pointer integer argument at an output
position records the type error, leaves the heap unchanged and advances the
cursor. -/
theorem C8_output_not_pointer_amended_witness :
    ∃ st', query stC8x "First" [Arg.val (Value.vint 7)] = .ok st' ∧
      Err.outputNotPointer (kindOfValue (Value.vint 7)) ∈ st'.testErrors ∧
      (∀ x, x ∉ ([] : List Nat) → st'.heap x = stC8x.heap x) ∧
      st'.index = stC8x.index + 1 :=
  C8_output_not_pointer_amended stC8x "First" [Arg.val (Value.vint 7)] expC8w
    [] (Value.vint 7) [] (by decide) (by decide) (by decide)

/-- C9: at the failing input — an expectation whose declared output is a
non-serialisable value, invoked with a pointer argument — `deepCopy`'s
serialisation step fails with an error, yet the collected-errors list stays
empty and `ExpectationsMet` returns nil: src/main.go line 154 discards
`deepCopy`'s return value, so the failure never reaches the collected-errors
list, contradicting the claim (the call does not panic, however). -/
theorem C9_marshal_error_dropped :
    exceptErrOf (deepCopy stC9x.heap (Value.vfunc 0) 0)
      = some (Err.marshalError (Value.vfunc 0)) ∧
    stC9x.expectations.map Expectation.Output = [[Value.vfunc 0]] ∧
    errorsOf (query stC9x "First" [Arg.ptr 0]) = some [] ∧
    (okState (query stC9x "First" [Arg.ptr 0])).map ExpectationsMet = some none := by
  decide

/-- C10: no call through the public interface ever indexes the expectation
list out of bounds: `query` returns before the helpers run whenever the
cursor is at or past the end, so the out-of-range indexing panic (modelled
by `oobPanicMsg` at every `expectations[index]` site in `verifyParams`,
`setOutputParams`, `setError` and `query` itself) can never be the outcome
of a call. -/
theorem C10_no_oob_access :
    ∀ (st : DB) (fn : String) (params : List Arg),
      isOobPanic (query st fn params) = false := by
  intro st fn params
  cases hq : query st fn params with
  | ok st2 => rfl
  | panicked m =>
    rw [query_panic_inv st fn params m hq]
    decide
